import Mathlib

/-!
Verification of the Sparkify ETL pipeline (`etl.py`).

The pipeline reads song-catalog JSON files and activity-log JSON files and
turns them into parameterized insert statements against a star schema
(songs, artists, users, time, songplays), committing once per file.

This file gives a shallow embedding of the pipeline:
* calendar arithmetic modelling the pandas/`datetime` timestamp decomposition
  (`pd.to_datetime(ts, unit='ms')`, `date.isocalendar()`, `strftime("%A")`);
* the per-file extractors `process_song_file` and `process_log_file` as pure
  functions from parsed file contents to the ordered list of emitted inserts;
* the driver `process_data` (file discovery via `os.walk` plus a per-directory
  glob for `*.json`, then a per-file execute/commit loop) as a function
  producing the ordered trace of database actions, with an explicit error
  channel for failing statement executions.

JSON parsing is taken as given: a song file is a list of already-parsed song
objects, a log file a list of already-parsed events.  The `song_select`
lookup query is modelled as a function from the lookup triple to an optional
pair of identifiers (the result of `cur.fetchone()`).
-/

namespace Etl

/-! ### Calendar arithmetic

`pd.to_datetime(ts, unit='ms')` interprets `ts` as milliseconds since the
Unix epoch, with no timezone conversion.  Its year/month/day decomposition is
modelled with Howard Hinnant's `civil_from_days` algorithm (extensionally the
conversion used by numpy/pandas), staged exactly as in the original:
`era`, `doe` (day-of-era), `yoe` (year-of-era), `doy` (day-of-year),
`mp` (shifted month).  `ts : Nat`, so the day number is nonnegative. -/

def cEra (z : Nat) : Nat := (z + 719468) / 146097

def cDoe (z : Nat) : Nat := (z + 719468) % 146097

def cYoe (z : Nat) : Nat :=
  (cDoe z - cDoe z / 1460 + cDoe z / 36524 - cDoe z / 146096) / 365

def cDoy (z : Nat) : Nat := cDoe z - (365 * cYoe z + cYoe z / 4 - cYoe z / 100)

def cMp (z : Nat) : Nat := (5 * cDoy z + 2) / 153

/-- Day number since 1970-01-01 to proleptic-Gregorian (year, month, day). -/
def civilFromDays (z : Nat) : Int × Nat × Nat :=
  let d := cDoy z - (153 * cMp z + 2) / 5 + 1
  let m := if cMp z < 10 then cMp z + 3 else cMp z - 9
  let y : Int := (cYoe z + 400 * cEra z : Nat)
  (if m ≤ 2 then y + 1 else y, m, d)

/-- CPython `datetime._is_leap`. -/
def isLeap (y : Int) : Bool :=
  y % 4 == 0 && (y % 100 != 0 || y % 400 == 0)

/-- CPython `datetime._days_before_year`: days before January 1st of `year`,
counting from ordinal day 1 = 0001-01-01. -/
def daysBeforeYear (y : Int) : Int :=
  365 * (y - 1) + (y - 1) / 4 - (y - 1) / 100 + (y - 1) / 400

/-- CPython `datetime._DAYS_BEFORE_MONTH` table. -/
def dbmTable (m : Nat) : Int :=
  match m with
  | 1 => 0 | 2 => 31 | 3 => 59 | 4 => 90 | 5 => 120 | 6 => 151
  | 7 => 181 | 8 => 212 | 9 => 243 | 10 => 273 | 11 => 304 | 12 => 334
  | _ => 0

/-- CPython `datetime._days_before_month`. -/
def daysBeforeMonth (y : Int) (m : Nat) : Int :=
  dbmTable m + (if 2 < m ∧ isLeap y = true then 1 else 0)

/-- CPython `datetime._ymd2ord`: proleptic-Gregorian ordinal of a date. -/
def ymdToOrd (y : Int) (m d : Nat) : Int :=
  daysBeforeYear y + daysBeforeMonth y m + d

/-- CPython `datetime._isoweek1monday`: ordinal of the Monday starting ISO
week 1 of `year`.  Python's `//` is floor division; all divisors here are
positive, so euclidean `/` and `%` on `Int` coincide with it. -/
def isoWeek1Monday (y : Int) : Int :=
  let firstday := ymdToOrd y 1 1
  let firstweekday := (firstday + 6) % 7
  let week1monday := firstday - firstweekday
  if 3 < firstweekday then week1monday + 7 else week1monday

/-- The body of CPython `date.isocalendar` after computing the ordinal
`today` of the date: returns (ISO year, ISO week, ISO weekday). -/
def isocalendarAt (y : Int) (today : Int) : Int × Int × Int :=
  let week1monday := isoWeek1Monday y
  let week := (today - week1monday) / 7
  let day := (today - week1monday) % 7
  if week < 0 then
    let w1m := isoWeek1Monday (y - 1)
    (y - 1, (today - w1m) / 7 + 1, (today - w1m) % 7 + 1)
  else if 52 ≤ week ∧ isoWeek1Monday (y + 1) ≤ today then
    (y + 1, 1, day + 1)
  else
    (y, week + 1, day + 1)

/-- CPython `date.isocalendar`. -/
def isocalendar (y : Int) (m d : Nat) : Int × Int × Int :=
  isocalendarAt y (ymdToOrd y m d)

/-- English weekday names, Monday = 0 (C locale, as `strftime("%A")`). -/
def dayName (w : Nat) : String :=
  match w with
  | 0 => "Monday" | 1 => "Tuesday" | 2 => "Wednesday" | 3 => "Thursday"
  | 4 => "Friday" | 5 => "Saturday" | _ => "Sunday"

/-- `date.strftime("%A")`: the full weekday name of a date.
`date.weekday()` is `(ordinal + 6) % 7` with Monday = 0. -/
def strftimeA (y : Int) (m d : Nat) : String :=
  dayName (((ymdToOrd y m d + 6) % 7).toNat)

/-- Number of whole days since the epoch contained in `ts` milliseconds. -/
def epochDays (ts : Nat) : Nat := ts / 86400000

/-- The calendar year of day `z`. -/
def cYear (z : Nat) : Int :=
  match civilFromDays z with | (y, _, _) => y

/-- The calendar month of day `z`. -/
def cMonth (z : Nat) : Nat :=
  match civilFromDays z with | (_, m, _) => m

/-- The day-of-month of day `z`. -/
def cDay (z : Nat) : Nat :=
  match civilFromDays z with | (_, _, d) => d

/-- `.dt.year` of the pandas timestamp for `ts` epoch ms. -/
def yearOfTs (ts : Nat) : Int := cYear (epochDays ts)

/-- `.dt.month` of the pandas timestamp for `ts` epoch ms. -/
def monthOfTs (ts : Nat) : Nat := cMonth (epochDays ts)

/-- `.dt.day` of the pandas timestamp for `ts` epoch ms. -/
def dayOfTs (ts : Nat) : Nat := cDay (epochDays ts)

/-- `.dt.hour` of the pandas timestamp for `ts` epoch ms. -/
def hourOfTs (ts : Nat) : Nat := ts / 3600000 % 24

/-- A pandas `Timestamp` value (`pd.to_datetime(..., unit='ms')` result),
identified by its count of nanoseconds since the epoch. -/
structure PdTimestamp where
  ns : Int
deriving DecidableEq, Repr

/-- `pd.to_datetime(ts, unit='ms')`: epoch milliseconds to a timestamp value,
no timezone conversion. -/
def toDatetimeMs (ts : Nat) : PdTimestamp := ⟨(ts : Int) * 1000000⟩

/-! ### Data model -/

/-- One parsed activity-log event (one JSON line of a log file). -/
structure LogEvent where
  ts : Nat
  page : String
  userId : String
  firstName : String
  lastName : String
  gender : String
  level : String
  song : String
  artist : String
  length : Rat
  sessionId : Nat
  location : String
  userAgent : String
deriving DecidableEq, Repr, Inhabited

/-- Parameter tuple of `time_table_insert`
(start_time, hour, day, week, month, year, weekday), in column order. -/
structure TimeRow where
  start_time : PdTimestamp
  hour : Nat
  day : Nat
  week : Int
  month : Nat
  year : Int
  weekday : String
deriving DecidableEq, Repr

/-- Parameter tuple of `user_table_insert`
(userId, firstName, lastName, gender, level), in column order. -/
structure UserRow where
  userId : String
  firstName : String
  lastName : String
  gender : String
  level : String
deriving DecidableEq, Repr

/-- Parameter tuple of `songplay_table_insert`
(start_time, userId, level, songid, artistid, sessionId, location,
userAgent), in column order. -/
structure SongplayRow where
  start_time : PdTimestamp
  userId : String
  level : String
  song_id : Option String
  artist_id : Option String
  sessionId : Nat
  location : String
  userAgent : String
deriving DecidableEq, Repr

/-- Parameter tuple of `song_table_insert`
(song_id, title, artist_id, year, duration), in column order. -/
structure SongRow where
  song_id : String
  title : String
  artist_id : String
  year : Int
  duration : Rat
deriving DecidableEq, Repr

/-- Parameter tuple of `artist_table_insert`
(artist_id, name, location, latitude, longitude), in column order. -/
structure ArtistRow where
  artist_id : String
  name : String
  location : String
  latitude : Option Rat
  longitude : Option Rat
deriving DecidableEq, Repr

/-- One emitted insert statement together with its parameters. -/
inductive Stmt where
  | timeInsert : TimeRow → Stmt
  | userInsert : UserRow → Stmt
  | songplayInsert : SongplayRow → Stmt
  | songInsert : SongRow → Stmt
  | artistInsert : ArtistRow → Stmt
deriving DecidableEq, Repr

def isTimeInsert : Stmt → Bool
  | .timeInsert _ => true
  | _ => false

def isUserInsert : Stmt → Bool
  | .userInsert _ => true
  | _ => false

def isSongplayInsert : Stmt → Bool
  | .songplayInsert _ => true
  | _ => false

/-- The start_time parameter of a statement, when it has one. -/
def stmtStartTime : Stmt → Option PdTimestamp
  | .timeInsert r => some r.start_time
  | .songplayInsert r => some r.start_time
  | _ => none

/-! ### Song file extractor (`process_song_file`, etl.py lines 8-29) -/

/-- One parsed song-catalog object, with the fields the extractor projects. -/
structure SongFile where
  song_id : String
  title : String
  artist_id : String
  year : Int
  duration : Rat
  artist_name : String
  artist_location : String
  artist_latitude : Option Rat
  artist_longitude : Option Rat
deriving DecidableEq, Repr

/-- `process_song_file`: projects the song columns and the artist columns of
the first object of the file (`df[...].values[0]`) and emits the song insert
then the artist insert.  `.values[0]` on an empty frame raises, hence
`Option`. -/
def process_song_file (file : List SongFile) : Option (List Stmt) :=
  match file with
  | [] => none
  | f :: _ =>
    some [Stmt.songInsert ⟨f.song_id, f.title, f.artist_id, f.year, f.duration⟩,
          Stmt.artistInsert
            ⟨f.artist_id, f.artist_name, f.artist_location,
             f.artist_latitude, f.artist_longitude⟩]

/-! ### Log file extractor (`process_log_file`, etl.py lines 32-87) -/

/-- The `song_select` query plus `cur.fetchone()`: an exact-match lookup of
(song title, artist name, track duration) returning the matching
(song_id, artist_id) row, or `none` when no row matches. -/
def Lookup : Type := String → String → Rat → Option (String × String)

/-- `df[df['page']=="NextSong"]`: events retained by the page filter,
in original order. -/
def retained (events : List LogEvent) : List LogEvent :=
  events.filter (fun e => e.page == "NextSong")

/-- Line 55: `datetime.date(x.year, x.month, x.day).isocalendar()[1]`,
the ISO week number of the date of `ts`. -/
def weekOfTs (ts : Nat) : Int :=
  match isocalendar (yearOfTs ts) (monthOfTs ts) (dayOfTs ts) with
  | (_, w, _) => w

/-- Line 56: `datetime.date(x.year, x.month, x.day).strftime("%A")`,
the full weekday name of the date of `ts`. -/
def weekdayOfTs (ts : Nat) : String :=
  strftimeA (yearOfTs ts) (monthOfTs ts) (dayOfTs ts)

/-- The time-dimension row derived from one event's `ts` (etl.py lines
52-61): `start_time` is the converted timestamp, hour/day/month/year its
calendar decomposition, `week` the `isocalendar()[1]` ISO week number,
`weekday` the `strftime("%A")` full day name. -/
def timeRowOfTs (ts : Nat) : TimeRow :=
  { start_time := toDatetimeMs ts
    hour := hourOfTs ts
    day := dayOfTs ts
    week := weekOfTs ts
    month := monthOfTs ts
    year := yearOfTs ts
    weekday := weekdayOfTs ts }

/-- The user row projected from one event (etl.py line 68). -/
def userRowOf (e : LogEvent) : UserRow :=
  ⟨e.userId, e.firstName, e.lastName, e.gender, e.level⟩

/-- The songplay fact row built from one event (etl.py lines 75-87): the
lookup result binds song_id/artist_id when a row matched, otherwise both are
null; the row is built either way. -/
def songplayRowOf (lookup : Lookup) (e : LogEvent) : SongplayRow :=
  match lookup e.song e.artist e.length with
  | some (sid, aid) =>
    { start_time := toDatetimeMs e.ts, userId := e.userId, level := e.level
      song_id := some sid, artist_id := some aid
      sessionId := e.sessionId, location := e.location
      userAgent := e.userAgent }
  | none =>
    { start_time := toDatetimeMs e.ts, userId := e.userId, level := e.level
      song_id := none, artist_id := none
      sessionId := e.sessionId, location := e.location
      userAgent := e.userAgent }

/-- `process_log_file`: filter the events by page, then emit all time
inserts, then all user inserts, then all songplay inserts, each loop in
event order. -/
def process_log_file (lookup : Lookup) (events : List LogEvent) : List Stmt :=
  let df := retained events
  (df.map fun e => Stmt.timeInsert (timeRowOfTs e.ts))
    ++ (df.map fun e => Stmt.userInsert (userRowOf e))
    ++ (df.map fun e => Stmt.songplayInsert (songplayRowOf lookup e))

/-! ### File discovery (`process_data`, etl.py lines 101-106)

A directory listing is a chain of entries, each a plain file or a
subdirectory with its own listing; paths are modelled as component lists
(what `os.path.abspath(os.path.join(root, f))` produces, without the string
encoding).  `os.walk` visits the root, then every subdirectory, once each;
for each visited directory the code re-globs `*.json` inside it. -/

inductive FsEntries where
  | nil : FsEntries
  | file (name : String) (rest : FsEntries) : FsEntries
  | dir (name : String) (contents : FsEntries) (rest : FsEntries) : FsEntries
deriving DecidableEq, Repr

/-- `glob.glob(os.path.join(root, '*.json'))` name test: the file name ends
with `.json` (stated over the character list, so it evaluates). -/
def hasJsonExt (n : String) : Bool := ".json".data.isSuffixOf n.data

/-- The `*.json` matches directly inside one directory listing, as absolute
paths. -/
def jsonHere (path : List String) : FsEntries → List (List String)
  | .nil => []
  | .file n rest =>
    (if hasJsonExt n then [path ++ [n]] else []) ++ jsonHere path rest
  | .dir _ _ rest => jsonHere path rest

/-- The matches contributed by all proper subdirectories, visited
recursively (the tail of the `os.walk` traversal). -/
def walkDirs (path : List String) : FsEntries → List (List String)
  | .nil => []
  | .file _ rest => walkDirs path rest
  | .dir n c rest =>
    (jsonHere (path ++ [n]) c ++ walkDirs (path ++ [n]) c) ++ walkDirs path rest

/-- All `*.json` paths found by walking from a root listing: the root's own
matches first, then each subdirectory's, depth first. -/
def discover (path : List String) (es : FsEntries) : List (List String) :=
  jsonHere path es ++ walkDirs path es

/-- `os.walk` on the root path.  Per the CPython documentation, errors from
the initial `scandir` call are ignored when `onerror` is `None` (the default
used here), so a missing root (`none`) produces no directories at all and no
exception: discovery returns the empty list. -/
def discoverRoot (path : List String) : Option FsEntries → List (List String)
  | none => []
  | some es => discover path es

/-- Every entry name at one level of a listing (files and subdirectories
share a directory's namespace). -/
def entryNames : FsEntries → List String
  | .nil => []
  | .file n rest => n :: entryNames rest
  | .dir n _ rest => n :: entryNames rest

/-- A well-formed filesystem: names are unique within each directory (each
file resides in exactly one directory; no symlink cycles, so the tree shape
itself is the traversal). -/
def Wf : FsEntries → Prop
  | .nil => True
  | .file n rest => n ∉ entryNames rest ∧ Wf rest
  | .dir n c rest => n ∉ entryNames rest ∧ Wf c ∧ Wf rest

instance instDecidableWf : (es : FsEntries) → Decidable (Wf es)
  | .nil => isTrue trivial
  | .file n rest =>
    have : Decidable (Wf rest) := instDecidableWf rest
    decidable_of_iff (n ∉ entryNames rest ∧ Wf rest) Iff.rfl
  | .dir n c rest =>
    have : Decidable (Wf c) := instDecidableWf c
    have : Decidable (Wf rest) := instDecidableWf rest
    decidable_of_iff (n ∉ entryNames rest ∧ Wf c ∧ Wf rest) Iff.rfl

/-! ### Batch loader (`process_data`, etl.py lines 90-116) -/

/-- A database error raised by a statement execution. -/
inductive DbErr where
  | err : String → DbErr
deriving DecidableEq, Repr

/-- One observable database action of the loader. -/
inductive DbAction where
  | exec : Stmt → DbAction
  | commit : DbAction
deriving DecidableEq, Repr

/-- Run one file's statements in order against an executor that may fail.
Returns the successfully executed actions and the first error, if any; a
failing statement stops the loop, so nothing after it is attempted. -/
def runStmts (fails : Stmt → Option DbErr) : List Stmt → List DbAction × Option DbErr
  | [] => ([], none)
  | s :: rest =>
    match fails s with
    | some e => ([], some e)
    | none =>
      let r := runStmts fails rest
      (DbAction.exec s :: r.1, r.2)

/-- The per-file loop of `process_data` (lines 113-116): for each file, run
its statements, then `conn.commit()`; an exception from any statement
propagates immediately, so the failing file gets no commit and no later file
is processed. -/
def runFiles (fails : Stmt → Option DbErr) : List (List Stmt) → List DbAction × Option DbErr
  | [] => ([], none)
  | f :: rest =>
    let r := runStmts fails f
    match r.2 with
    | some e => (r.1, some e)
    | none =>
      let r2 := runFiles fails rest
      (r.1 ++ DbAction.commit :: r2.1, r2.2)

/-- `process_data`: discover all `*.json` files under the root, then process
them in discovery order with the extractor, committing once per file. -/
def process_data (rootPath : List String) (fs : Option FsEntries)
    (extract : List String → List Stmt) (fails : Stmt → Option DbErr) :
    List DbAction × Option DbErr :=
  runFiles fails ((discoverRoot rootPath fs).map extract)

/-! ## Helper lemmas -/

theorem filter_time_bucket (lookup : Lookup) (events : List LogEvent) :
    (process_log_file lookup events).filter (fun s => isTimeInsert s)
      = (retained events).map (fun e => Stmt.timeInsert (timeRowOfTs e.ts)) := by
  simp [process_log_file, List.filter_append, List.filter_map, Function.comp_def,
    isTimeInsert]

theorem filter_user_bucket (lookup : Lookup) (events : List LogEvent) :
    (process_log_file lookup events).filter (fun s => isUserInsert s)
      = (retained events).map (fun e => Stmt.userInsert (userRowOf e)) := by
  simp [process_log_file, List.filter_append, List.filter_map, Function.comp_def,
    isUserInsert]

theorem filter_fact_bucket (lookup : Lookup) (events : List LogEvent) :
    (process_log_file lookup events).filter (fun s => isSongplayInsert s)
      = (retained events).map (fun e => Stmt.songplayInsert (songplayRowOf lookup e)) := by
  simp [process_log_file, List.filter_append, List.filter_map, Function.comp_def,
    isSongplayInsert]

theorem songplayRowOf_start_time (lookup : Lookup) (e : LogEvent) :
    (songplayRowOf lookup e).start_time = toDatetimeMs e.ts := by
  rcases h : lookup e.song e.artist e.length with _ | ⟨sid, aid⟩ <;>
    simp [songplayRowOf, h]

theorem runStmts_all_ok (fails : Stmt → Option DbErr) (l : List Stmt)
    (h : ∀ s ∈ l, fails s = none) :
    runStmts fails l = (l.map DbAction.exec, none) := by
  induction l with
  | nil => rfl
  | cons s rest ih =>
    have hs : fails s = none := h s (List.mem_cons_self s rest)
    have hr := ih (fun x hx => h x (List.mem_cons_of_mem s hx))
    simp [runStmts, hs, hr]

theorem runStmts_noerr (fails : Stmt → Option DbErr) (l : List Stmt)
    (h : (runStmts fails l).2 = none) :
    (runStmts fails l).1 = l.map DbAction.exec := by
  induction l with
  | nil => rfl
  | cons s rest ih =>
    cases hs : fails s with
    | some e => simp [runStmts, hs] at h
    | none =>
      simp only [runStmts, hs] at h ⊢
      rw [ih h, List.map_cons]

theorem runStmts_prefix_fail (fails : Stmt → Option DbErr) (s1 : List Stmt)
    (sbad : Stmt) (s2 : List Stmt) (e : DbErr)
    (h1 : ∀ s ∈ s1, fails s = none) (hbad : fails sbad = some e) :
    runStmts fails (s1 ++ sbad :: s2) = (s1.map DbAction.exec, some e) := by
  induction s1 with
  | nil => simp [runStmts, hbad]
  | cons s rest ih =>
    have hs : fails s = none := h1 s (List.mem_cons_self s rest)
    have hr := ih (fun x hx => h1 x (List.mem_cons_of_mem s hx))
    simp [runStmts, hs, hr]

theorem runFiles_noerr (fails : Stmt → Option DbErr) (fl : List (List Stmt))
    (h : (runFiles fails fl).2 = none) :
    (runFiles fails fl).1
      = fl.flatMap (fun f => f.map DbAction.exec ++ [DbAction.commit]) := by
  induction fl with
  | nil => rfl
  | cons f rest ih =>
    cases hr : (runStmts fails f).2 with
    | some e => simp [runFiles, hr] at h
    | none =>
      simp only [runFiles, hr] at h ⊢
      rw [runStmts_noerr fails f hr, ih h]
      simp

theorem runFiles_all_ok_prefix (fails : Stmt → Option DbErr)
    (pre rest : List (List Stmt))
    (hpre : ∀ f ∈ pre, ∀ s ∈ f, fails s = none) :
    runFiles fails (pre ++ rest)
      = (pre.flatMap (fun f => f.map DbAction.exec ++ [DbAction.commit])
          ++ (runFiles fails rest).1, (runFiles fails rest).2) := by
  induction pre with
  | nil => simp
  | cons f pre' ih =>
    have hf : runStmts fails f = (f.map DbAction.exec, none) :=
      runStmts_all_ok fails f (hpre f (List.mem_cons_self f pre'))
    have hr := ih (fun x hx => hpre x (List.mem_cons_of_mem f hx))
    simp [runFiles, hf, hr]

theorem jsonHere_shape (p : List String) (es : FsEntries) :
    ∀ q ∈ jsonHere p es, ∃ n, q = p ++ [n] ∧ n ∈ entryNames es := by
  induction es with
  | nil => intro q hq; simp [jsonHere] at hq
  | file n rest ih =>
    intro q hq
    simp only [jsonHere] at hq
    rcases List.mem_append.mp hq with h1 | h2
    · refine ⟨n, ?_, by simp [entryNames]⟩
      rcases hj : hasJsonExt n with _ | _ <;> rw [hj] at h1 <;> simp at h1 <;>
        simp [h1]
    · obtain ⟨m, hm1, hm2⟩ := ih q h2
      exact ⟨m, hm1, by simp [entryNames, hm2]⟩
  | dir n c rest ihc ihr =>
    intro q hq
    simp only [jsonHere] at hq
    obtain ⟨m, hm1, hm2⟩ := ihr q hq
    exact ⟨m, hm1, by simp [entryNames, hm2]⟩

theorem walkDirs_shape (es : FsEntries) :
    ∀ (p : List String), ∀ q ∈ walkDirs p es,
      ∃ d r, q = p ++ d :: r ∧ r ≠ [] ∧ d ∈ entryNames es := by
  induction es with
  | nil => intro p q hq; simp [walkDirs] at hq
  | file n rest ih =>
    intro p q hq
    simp only [walkDirs] at hq
    obtain ⟨d, r, h1, h2, h3⟩ := ih p q hq
    exact ⟨d, r, h1, h2, by simp [entryNames, h3]⟩
  | dir n c rest ihc ihr =>
    intro p q hq
    simp only [walkDirs, List.append_assoc] at hq
    rcases List.mem_append.mp hq with h1 | h23
    · obtain ⟨m, hm1, _⟩ := jsonHere_shape (p ++ [n]) c q h1
      refine ⟨n, [m], ?_, by simp, by simp [entryNames]⟩
      simpa [List.append_assoc] using hm1
    · rcases List.mem_append.mp h23 with h2 | h3
      · obtain ⟨d, r, h1, _, _⟩ := ihc (p ++ [n]) q h2
        refine ⟨n, d :: r, ?_, by simp, by simp [entryNames]⟩
        simpa [List.append_assoc] using h1
      · obtain ⟨d, r, hr1, hr2, hr3⟩ := ihr p q h3
        exact ⟨d, r, hr1, hr2, by simp [entryNames, hr3]⟩

theorem jsonHere_nodup (es : FsEntries) :
    ∀ (p : List String), Wf es → (jsonHere p es).Nodup := by
  induction es with
  | nil => intro p _; simp [jsonHere]
  | file n rest ih =>
    intro p h
    obtain ⟨hn, hwf⟩ : n ∉ entryNames rest ∧ Wf rest := h
    rcases hj : hasJsonExt n with _ | _ <;> simp only [jsonHere, hj]
    · simpa using ih p hwf
    · rw [if_true, List.singleton_append, List.nodup_cons]
      refine ⟨fun hmem => ?_, ih p hwf⟩
      obtain ⟨m, hm1, hm2⟩ := jsonHere_shape p rest _ hmem
      have hx : n = m := by
        have := List.append_cancel_left hm1
        simpa using this
      exact hn (hx ▸ hm2)
  | dir n c rest ihc ihr =>
    intro p h
    obtain ⟨hn, hwfc, hwfr⟩ : n ∉ entryNames rest ∧ Wf c ∧ Wf rest := h
    simpa [jsonHere] using ihr p hwfr

theorem walkDirs_nodup (es : FsEntries) :
    ∀ (p : List String), Wf es → (walkDirs p es).Nodup := by
  induction es with
  | nil => intro p _; simp [walkDirs]
  | file n rest ih =>
    intro p h
    obtain ⟨hn, hwf⟩ : n ∉ entryNames rest ∧ Wf rest := h
    simpa [walkDirs] using ih p hwf
  | dir n c rest ihc ihr =>
    intro p h
    obtain ⟨hn, hwfc, hwfr⟩ : n ∉ entryNames rest ∧ Wf c ∧ Wf rest := h
    simp only [walkDirs]
    rw [List.nodup_append, List.nodup_append]
    refine ⟨⟨jsonHere_nodup c (p ++ [n]) hwfc, ihc (p ++ [n]) hwfc, ?_⟩,
      ihr p hwfr, ?_⟩
    · intro q hq1 hq2
      obtain ⟨m, hm1, _⟩ := jsonHere_shape (p ++ [n]) c q hq1
      obtain ⟨d, r, hd1, hd2, _⟩ := walkDirs_shape c (p ++ [n]) q hq2
      rw [hm1] at hd1
      have h2 := List.append_cancel_left hd1
      simp only [List.cons.injEq] at h2
      exact hd2 h2.2.symm
    · intro q hq1 hq2
      obtain ⟨d, r, hd1, _, hd3⟩ := walkDirs_shape rest p q hq2
      have hq1' : ∃ t, q = (p ++ [n]) ++ t := by
        rcases List.mem_append.mp hq1 with h1 | h2
        · obtain ⟨m, hm1, _⟩ := jsonHere_shape (p ++ [n]) c q h1
          exact ⟨[m], hm1⟩
        · obtain ⟨d2, r2, hx, _, _⟩ := walkDirs_shape c (p ++ [n]) q h2
          exact ⟨d2 :: r2, hx⟩
      obtain ⟨t, ht⟩ := hq1'
      rw [ht, List.append_assoc] at hd1
      have h2 := List.append_cancel_left hd1
      have h3 : n :: t = d :: r := by simpa using h2
      simp only [List.cons.injEq] at h3
      exact hn (h3.1 ▸ hd3)

/-! ## Claim theorems -/

/-- C1: processing a log file emits exactly one time insert, one user insert
and one fact insert per event with `page == "NextSong"` (all other events
contribute nothing), in three consecutive buckets — all time inserts, then
all user inserts, then all fact inserts — each bucket in original event
order. -/
theorem nextsong_bucketed_trace (lookup : Lookup) (events : List LogEvent) :
    ((process_log_file lookup events).filter (fun s => isTimeInsert s)).length
        = (events.filter (fun e => e.page == "NextSong")).length ∧
    ((process_log_file lookup events).filter (fun s => isUserInsert s)).length
        = (events.filter (fun e => e.page == "NextSong")).length ∧
    ((process_log_file lookup events).filter (fun s => isSongplayInsert s)).length
        = (events.filter (fun e => e.page == "NextSong")).length ∧
    process_log_file lookup events
      = (process_log_file lookup events).filter (fun s => isTimeInsert s)
        ++ (process_log_file lookup events).filter (fun s => isUserInsert s)
        ++ (process_log_file lookup events).filter (fun s => isSongplayInsert s) ∧
    (process_log_file lookup events).filter (fun s => isTimeInsert s)
      = (retained events).map (fun e => Stmt.timeInsert (timeRowOfTs e.ts)) ∧
    (process_log_file lookup events).filter (fun s => isUserInsert s)
      = (retained events).map (fun e => Stmt.userInsert (userRowOf e)) ∧
    (process_log_file lookup events).filter (fun s => isSongplayInsert s)
      = (retained events).map (fun e => Stmt.songplayInsert (songplayRowOf lookup e)) := by
  refine ⟨?_, ?_, ?_, ?_, filter_time_bucket lookup events,
    filter_user_bucket lookup events, filter_fact_bucket lookup events⟩
  · rw [filter_time_bucket]; simp [retained]
  · rw [filter_user_bucket]; simp [retained]
  · rw [filter_fact_bucket]; simp [retained]
  · rw [filter_time_bucket, filter_user_bucket, filter_fact_bucket]
    simp [process_log_file]

/-- C2: every retained event's fact row binds song_id/artist_id from the
exact-match lookup on (song title, artist name, track duration); a failed
lookup yields null in both fields and the fact insert is still emitted (one
fact insert per retained event, unconditionally). -/
theorem fact_row_lookup_binding (lookup : Lookup) (events : List LogEvent) :
    ((process_log_file lookup events).filter (fun s => isSongplayInsert s)).length
        = (retained events).length ∧
    (process_log_file lookup events).filter (fun s => isSongplayInsert s)
      = (retained events).map (fun e => Stmt.songplayInsert (songplayRowOf lookup e)) ∧
    (∀ e : LogEvent,
      ((songplayRowOf lookup e).song_id, (songplayRowOf lookup e).artist_id)
        = match lookup e.song e.artist e.length with
          | some (sid, aid) => (some sid, some aid)
          | none => (none, none)) ∧
    (∀ e : LogEvent, lookup e.song e.artist e.length = none →
      (songplayRowOf lookup e).song_id = none
        ∧ (songplayRowOf lookup e).artist_id = none) := by
  refine ⟨?_, filter_fact_bucket lookup events, ?_, ?_⟩
  · rw [filter_fact_bucket]; simp
  · intro e
    rcases h : lookup e.song e.artist e.length with _ | ⟨sid, aid⟩ <;>
      simp [songplayRowOf, h]
  · intro e h
    simp [songplayRowOf, h]

theorem fact_row_lookup_binding_witness :
    (songplayRowOf (fun _ _ _ => none)
        ⟨1541109954796, "NextSong", "8", "K", "S", "F", "free", "Setanta matins",
         "Elena", (269583 : Rat) / 1000, 139, "Phoenix", "agent"⟩).song_id = none ∧
    (songplayRowOf (fun _ _ _ => none)
        ⟨1541109954796, "NextSong", "8", "K", "S", "F", "free", "Setanta matins",
         "Elena", (269583 : Rat) / 1000, 139, "Phoenix", "agent"⟩).artist_id = none :=
  (fact_row_lookup_binding (fun _ _ _ => none) []).2.2.2 _ rfl

/-- C3: a song file yields exactly two inserts in fixed order — the song
tuple then the artist tuple, each the projection of the file's fields onto
the column order — reading only the first object of the file, as a pure
function of the file contents. -/
theorem song_file_first_object_projection (f : SongFile) (rest : List SongFile) :
    process_song_file (f :: rest)
      = some [Stmt.songInsert ⟨f.song_id, f.title, f.artist_id, f.year, f.duration⟩,
              Stmt.artistInsert ⟨f.artist_id, f.artist_name, f.artist_location,
                f.artist_latitude, f.artist_longitude⟩] ∧
    process_song_file (f :: rest) = process_song_file [f] :=
  ⟨rfl, rfl⟩

/-- C4: the batch loader processes files exactly in discovery order, and on a
run where no statement fails it issues exactly one commit per file, placed
after all of that file's statements — never one commit per statement. -/
theorem files_in_order_one_commit_each (rootPath : List String)
    (fs : Option FsEntries) (extract : List String → List Stmt)
    (fails : Stmt → Option DbErr)
    (h : (process_data rootPath fs extract fails).2 = none) :
    (process_data rootPath fs extract fails).1
      = (discoverRoot rootPath fs).flatMap
          (fun p => (extract p).map DbAction.exec ++ [DbAction.commit]) := by
  unfold process_data at h ⊢
  rw [runFiles_noerr _ _ h, List.flatMap_map]

theorem files_in_order_one_commit_each_witness :
    (process_data [] (some (FsEntries.file "a.json" FsEntries.nil))
        (fun _ => []) (fun _ => none)).2 = none ∧
    (process_data [] (some (FsEntries.file "a.json" FsEntries.nil))
        (fun _ => []) (fun _ => none)).1
      = (discoverRoot [] (some (FsEntries.file "a.json" FsEntries.nil))).flatMap
          (fun p => ((fun _ => ([] : List Stmt)) p).map DbAction.exec
            ++ [DbAction.commit]) :=
  ⟨by decide, files_in_order_one_commit_each [] _ _ _ (by decide)⟩

/-- C5: each retained event's time-dimension insert carries a row that is a
pure function of the event's `ts`: start_time is the epoch-ms conversion
(no timezone shift), hour/day/month/year its calendar decomposition, week
the `isocalendar` ISO-8601 week number, weekday the `strftime("%A")` full
day name. -/
theorem time_row_pure_function_of_ts (lookup : Lookup) (events : List LogEvent) :
    (process_log_file lookup events).filter (fun s => isTimeInsert s)
      = (retained events).map (fun e => Stmt.timeInsert (timeRowOfTs e.ts)) ∧
    (∀ e1 e2 : LogEvent, e1.ts = e2.ts → timeRowOfTs e1.ts = timeRowOfTs e2.ts) ∧
    ∀ ts : Nat,
      (timeRowOfTs ts).start_time = toDatetimeMs ts ∧
      (timeRowOfTs ts).hour = hourOfTs ts ∧
      (timeRowOfTs ts).day = dayOfTs ts ∧
      (timeRowOfTs ts).month = monthOfTs ts ∧
      (timeRowOfTs ts).year = yearOfTs ts ∧
      (timeRowOfTs ts).week = weekOfTs ts ∧
      (timeRowOfTs ts).weekday = weekdayOfTs ts := by
  refine ⟨filter_time_bucket lookup events, fun e1 e2 h => by rw [h], fun ts => ?_⟩
  simp only [timeRowOfTs]
  refine ⟨?_, ?_, ?_, ?_, ?_, ?_, ?_⟩ <;> trivial

/-- C7 (amended): a missing root directory is not an error: `os.walk` with
its default `onerror=None` ignores the failing `scandir`, so discovery
returns the empty list and the loader completes normally having processed
zero files. -/
theorem missing_root_is_empty_run (rootPath : List String)
    (extract : List String → List Stmt) (fails : Stmt → Option DbErr) :
    discoverRoot rootPath none = [] ∧
    process_data rootPath none extract fails = ([], none) :=
  ⟨rfl, rfl⟩

/-- C7 counterexample: with the root directory missing, discovery behaves
exactly like an existing empty directory and the run terminates normally
(no error outcome), even under an executor that would fail every statement —
contradicting the claim that a filesystem error propagates to the caller. -/
theorem missing_root_no_error_cx :
    discoverRoot ["data", "song_data"] none
      = discoverRoot ["data", "song_data"] (some FsEntries.nil) ∧
    process_data ["data", "song_data"] none
        (fun _ => []) (fun _ => some (DbErr.err "db error")) = ([], none) :=
  ⟨rfl, rfl⟩

/-- C8: if a statement raises while processing a file, the exception
propagates at once: the statements after the failing one in that file are
not executed, that file gets no commit, no later discovered file is
processed, and the files completed before the failure keep their commits. -/
theorem failing_statement_stops_run (rootPath : List String)
    (fs : Option FsEntries) (extract : List String → List Stmt)
    (fails : Stmt → Option DbErr) (pre : List (List Stmt)) (s1 : List Stmt)
    (sbad : Stmt) (s2 : List Stmt) (post : List (List Stmt)) (e : DbErr)
    (hdisc : (discoverRoot rootPath fs).map extract
      = pre ++ (s1 ++ sbad :: s2) :: post)
    (hpre : ∀ f ∈ pre, ∀ s ∈ f, fails s = none)
    (hs1 : ∀ s ∈ s1, fails s = none)
    (hbad : fails sbad = some e) :
    process_data rootPath fs extract fails
      = (pre.flatMap (fun f => f.map DbAction.exec ++ [DbAction.commit])
          ++ s1.map DbAction.exec, some e) := by
  unfold process_data
  rw [hdisc, runFiles_all_ok_prefix fails pre _ hpre]
  have hfile := runStmts_prefix_fail fails s1 sbad s2 e hs1 hbad
  simp [runFiles, hfile]

def stmtA : Stmt := Stmt.userInsert ⟨"1", "a", "b", "F", "free"⟩

def stmtB : Stmt := Stmt.userInsert ⟨"2", "c", "d", "M", "paid"⟩

def stmtBad : Stmt := Stmt.userInsert ⟨"3", "e", "f", "F", "free"⟩

def fsW : Option FsEntries :=
  some (FsEntries.file "a.json" (FsEntries.file "b.json" FsEntries.nil))

def extractW (p : List String) : List Stmt :=
  if p = ["a.json"] then [stmtA] else [stmtB, stmtBad]

def failsW (s : Stmt) : Option DbErr :=
  if s = stmtBad then some (DbErr.err "db error") else none

theorem failing_statement_stops_run_witness :
    (discoverRoot [] fsW).map extractW
      = [[stmtA]] ++ ([stmtB] ++ stmtBad :: []) :: [] ∧
    failsW stmtBad = some (DbErr.err "db error") ∧
    process_data [] fsW extractW failsW
      = ([[stmtA]].flatMap (fun f => f.map DbAction.exec ++ [DbAction.commit])
          ++ [stmtB].map DbAction.exec, some (DbErr.err "db error")) :=
  ⟨by decide, by decide,
   failing_statement_stops_run [] fsW extractW failsW [[stmtA]] [stmtB] stmtBad []
     [] (DbErr.err "db error") (by decide) (by decide) (by decide) (by decide)⟩

/-- C9: on a well-formed filesystem (each name unique within its directory,
no cycles), the discovered list of `*.json` paths has no duplicates: every
directory is visited once and the per-directory glob only matches files
directly inside it, so each file contributes exactly one absolute path. -/
theorem discovery_paths_nodup (rootPath : List String) (es : FsEntries)
    (h : Wf es) : (discover rootPath es).Nodup := by
  rw [discover, List.nodup_append]
  refine ⟨jsonHere_nodup es rootPath h, walkDirs_nodup es rootPath h, ?_⟩
  intro q hq1 hq2
  obtain ⟨m, hm1, _⟩ := jsonHere_shape rootPath es q hq1
  obtain ⟨d, r, hd1, hd2, _⟩ := walkDirs_shape es rootPath q hq2
  rw [hm1] at hd1
  have h2 := List.append_cancel_left hd1
  simp only [List.cons.injEq] at h2
  exact hd2 h2.2.symm

theorem discovery_paths_nodup_witness :
    Wf (FsEntries.dir "d" (FsEntries.file "x.json" FsEntries.nil)
        (FsEntries.file "x.json" FsEntries.nil)) ∧
    (discover ["data"] (FsEntries.dir "d" (FsEntries.file "x.json" FsEntries.nil)
        (FsEntries.file "x.json" FsEntries.nil))).Nodup :=
  ⟨by decide, discovery_paths_nodup ["data"] _ (by decide)⟩

/-- C10: for every retained event, the fact insert's start_time equals the
time insert's start_time at the same bucket position — both come from the
single conversion of the event's `ts` — so every fact row has a matching
time row emitted in the same file. -/
theorem fact_start_time_matches_time_row (lookup : Lookup)
    (events : List LogEvent) (i : Nat) :
    ((process_log_file lookup events).filter
        (fun s => isTimeInsert s))[i]?.bind stmtStartTime
      = ((process_log_file lookup events).filter
          (fun s => isSongplayInsert s))[i]?.bind stmtStartTime ∧
    ((process_log_file lookup events).filter
        (fun s => isTimeInsert s))[i]?.bind stmtStartTime
      = ((retained events)[i]?.map (fun e => toDatetimeMs e.ts)) := by
  rw [filter_time_bucket, filter_fact_bucket]
  cases h : (retained events)[i]? with
  | none => simp [List.getElem?_map, h]
  | some e => simp [List.getElem?_map, h, stmtStartTime, timeRowOfTs,
      songplayRowOf_start_time]

end Etl
